import Mathlib

/-!
Shallow embedding of the iotdb-restore-tool repository (Go) in Lean 4,
with theorems settling the frozen claims about its specification.

Conventions: Go strings are modelled as Lean `String` (or `List Char`
where the source indexes bytes), Go `int` counters as `Nat`, fallible
calls as `Except String` values supplied by an environment record (one
field per remote/HTTP call the code issues), and goroutine-per-file
concurrency as a fold over the file list (each task increments exactly
one atomic counter once, so aggregate counts are order-independent).
-/

namespace IoTDBRestore

/-! ## Batching (pkg/restorer/importer.go `Import`, batch.go `ProcessBatches`)

Both functions partition the manifest with the same loop
`for i := 0; i < totalFiles; i += batchSize { end := min(i+batchSize, totalFiles); batch := files[i:end] }`.
`toBatches` is that partition: taking the next `B` files until none remain.
The `B = 0` guard only serves termination; the source requires `B > 0`
(config defaulting forces `BatchSize` positive). -/

def toBatches (B : Nat) : (files : List α) → List (List α)
  | [] => []
  | a :: rest =>
    if B = 0 then []
    else (a :: rest).take B :: toBatches B ((a :: rest).drop B)
termination_by files => files.length
decreasing_by
  rename_i hB
  simp only [List.length_drop, List.length_cons]
  omega

theorem toBatches_nil (B : Nat) : toBatches B ([] : List α) = [] := by
  rw [toBatches]

theorem toBatches_cons (B : Nat) (hB : 0 < B) (files : List α) (hf : files ≠ []) :
    toBatches B files = files.take B :: toBatches B (files.drop B) := by
  rcases files with _ | ⟨a, rest⟩
  · exact absurd rfl hf
  · rw [toBatches]
    simp [Nat.pos_iff_ne_zero.mp hB]

theorem toBatches_flatten (B : Nat) (hB : 0 < B) (files : List α) :
    (toBatches B files).flatten = files := by
  suffices h : ∀ (n : Nat) (l : List α), l.length ≤ n → (toBatches B l).flatten = l by
    exact h files.length files le_rfl
  intro n
  induction n with
  | zero =>
    intro l hl
    rw [List.length_eq_zero.mp (Nat.le_zero.mp hl), toBatches_nil]
    rfl
  | succ n ih =>
    intro l hl
    rcases l with _ | ⟨a, rest⟩
    · simp [toBatches_nil]
    · rw [toBatches_cons B hB _ (by simp)]
      have hlt : ((a :: rest).drop B).length ≤ n := by
        simp only [List.length_drop, List.length_cons]
        simp only [List.length_cons] at hl
        omega
      rw [List.flatten_cons, ih _ hlt, List.take_append_drop]

theorem toBatches_length (B : Nat) (hB : 0 < B) (files : List α) :
    (toBatches B files).length = (files.length + B - 1) / B := by
  suffices h : ∀ (n : Nat) (l : List α), l.length ≤ n →
      (toBatches B l).length = (l.length + B - 1) / B by
    exact h files.length files le_rfl
  intro n
  induction n with
  | zero =>
    intro l hl
    rw [List.length_eq_zero.mp (Nat.le_zero.mp hl), toBatches_nil]
    simp only [List.length_nil, Nat.zero_add]
    exact (Nat.div_eq_of_lt (by omega)).symm
  | succ n ih =>
    intro l hl
    rcases l with _ | ⟨a, rest⟩
    · rw [toBatches_nil]
      simp only [List.length_nil, Nat.zero_add]
      exact (Nat.div_eq_of_lt (by omega)).symm
    · rw [toBatches_cons B hB _ (by simp)]
      have hlt : ((a :: rest).drop B).length ≤ n := by
        simp only [List.length_drop, List.length_cons]
        simp only [List.length_cons] at hl
        omega
      rw [List.length_cons, ih _ hlt]
      simp only [List.length_drop, List.length_cons]
      rcases Nat.lt_or_ge (rest.length + 1) B with hcase | hcase
      · have h1 : rest.length + 1 - B = 0 := by omega
        rw [h1]
        have h2 : (0 + B - 1) / B = 0 := Nat.div_eq_of_lt (by omega)
        rw [h2]
        have h3 : (rest.length + 1 + B - 1) / B = 1 := by
          apply Nat.div_eq_of_lt_le
          · omega
          · omega
        omega
      · have h1 : rest.length + 1 - B + B - 1 + B = rest.length + 1 + B - 1 := by omega
        have h2 : (rest.length + 1 - B + B - 1 + B) / B
            = (rest.length + 1 - B + B - 1) / B + 1 := Nat.add_div_right _ hB
        rw [← h1, h2]

theorem toBatches_get (B : Nat) (hB : 0 < B) (files : List α) :
    ∀ (k : Nat) (hk : k < (toBatches B files).length),
      (toBatches B files).get ⟨k, hk⟩ = (files.drop (B * k)).take B := by
  suffices h : ∀ (n : Nat) (l : List α), l.length ≤ n →
      ∀ (k : Nat) (hk : k < (toBatches B l).length),
        (toBatches B l).get ⟨k, hk⟩ = (l.drop (B * k)).take B by
    exact h files.length files le_rfl
  intro n
  induction n with
  | zero =>
    intro l hl k hk
    rw [List.length_eq_zero.mp (Nat.le_zero.mp hl), toBatches_nil] at hk
    exact absurd hk (by simp)
  | succ n ih =>
    intro l hl k hk
    rcases l with _ | ⟨a, rest⟩
    · rw [toBatches_nil] at hk
      exact absurd hk (by simp)
    · have hlt : ((a :: rest).drop B).length ≤ n := by
        simp only [List.length_drop, List.length_cons]
        simp only [List.length_cons] at hl
        omega
      rcases k with _ | k
      · rw [List.get_of_eq (toBatches_cons B hB _ (by simp))]
        simp
      · have hk' : k < (toBatches B ((a :: rest).drop B)).length := by
          have hkk := hk
          rw [toBatches_cons B hB _ (by simp)] at hkk
          simpa using hkk
        rw [List.get_of_eq (toBatches_cons B hB _ (by simp))]
        simp only [List.get_cons_succ]
        rw [ih _ hlt k hk', List.drop_drop]
        congr 1
        ring

/-! ## Import counting (pkg/restorer/importer.go `Import`)

Per file, `Import` spawns a goroutine that runs `importSingleFile` and
atomically increments exactly one of two counters.  The oracle
`ok : α → Bool` stands for the per-file outcome (remote load succeeded
and its output carried a success marker).  Because each task performs a
single atomic increment, the final counter values equal those of the
sequential fold below, in any interleaving. -/

structure ImportResult where
  TotalFiles : Nat
  SuccessCount : Nat
  FailedCount : Nat
  deriving Repr, DecidableEq

def countStep (ok : α → Bool) (acc : Nat × Nat) (f : α) : Nat × Nat :=
  if ok f then (acc.1 + 1, acc.2) else (acc.1, acc.2 + 1)

def Import (B : Nat) (ok : α → Bool) (files : List α) : ImportResult :=
  let counts := (toBatches B files).foldl (fun acc b => b.foldl (countStep ok) acc) (0, 0)
  ⟨files.length, counts.1, counts.2⟩

/-! `Batcher.ProcessBatches` / `processBatch` (pkg/restorer/batch.go):
the same partition, with per-batch counters. -/

structure Batch where
  Number : Nat
  Files : List String
  Processed : Nat
  Success : Nat
  Failed : Nat

def processBatch (ok : String → Bool) (files : List String) : Nat × Nat :=
  files.foldl (countStep ok) (0, 0)

def ProcessBatches (ok : String → Bool) (B : Nat) (files : List String) : List Batch :=
  (toBatches B files).enum.map fun p =>
    ⟨p.1 + 1, p.2, p.2.length, (processBatch ok p.2).1, (processBatch ok p.2).2⟩

theorem countStep_foldl_sum (ok : α → Bool) (l : List α) :
    ∀ acc : Nat × Nat,
      (l.foldl (countStep ok) acc).1 + (l.foldl (countStep ok) acc).2
        = acc.1 + acc.2 + l.length := by
  induction l with
  | nil => intro acc; simp
  | cons a t ih =>
    intro acc
    rw [List.foldl_cons, ih]
    simp only [countStep]
    split <;> simp <;> omega

theorem batches_foldl_sum (ok : α → Bool) (bs : List (List α)) :
    ∀ acc : Nat × Nat,
      ((bs.foldl (fun acc b => b.foldl (countStep ok) acc) acc).1
        + (bs.foldl (fun acc b => b.foldl (countStep ok) acc) acc).2)
        = acc.1 + acc.2 + bs.flatten.length := by
  induction bs with
  | nil => intro acc; simp
  | cons b t ih =>
    intro acc
    rw [List.foldl_cons, ih]
    rw [countStep_foldl_sum]
    simp [List.flatten_cons]
    omega

/-- C1: After every completed call of the batch importer's `Import` on any file
list, with any mix of per-file outcomes, the returned result satisfies
`SuccessCount + FailedCount = TotalFiles`, where `TotalFiles` is the length of
the input list; and every batch of `ProcessBatches` satisfies
`Success + Failed = Processed`. -/
theorem claim_C1_import_counts (B : Nat) (ok : String → Bool) (files : List String)
    (hB : 0 < B) :
    (Import B ok files).TotalFiles = files.length ∧
    (Import B ok files).SuccessCount + (Import B ok files).FailedCount
      = (Import B ok files).TotalFiles ∧
    ∀ b ∈ ProcessBatches ok B files, b.Success + b.Failed = b.Processed := by
  refine ⟨rfl, ?_, ?_⟩
  · show ((toBatches B files).foldl (fun acc b => b.foldl (countStep ok) acc) (0, 0)).1
        + ((toBatches B files).foldl (fun acc b => b.foldl (countStep ok) acc) (0, 0)).2
        = files.length
    rw [batches_foldl_sum, toBatches_flatten B hB]
    simp
  · intro b hb
    simp only [ProcessBatches, List.mem_map] at hb
    obtain ⟨p, _, hp⟩ := hb
    subst hp
    show (processBatch ok p.2).1 + (processBatch ok p.2).2 = p.2.length
    rw [processBatch, countStep_foldl_sum]
    simp

def wOk : String → Bool := fun s => !(s == "f4")

def wFiles : List String := ["f1", "f2", "f3", "f4", "f5", "f6", "f7"]

/-- Witness for C1 at batch size 3 on a concrete 7-file manifest with one
simulated failure. -/
theorem claim_C1_import_counts_witness :
    0 < 3 ∧
    ((Import 3 wOk wFiles).TotalFiles = wFiles.length ∧
    (Import 3 wOk wFiles).SuccessCount + (Import 3 wOk wFiles).FailedCount
      = (Import 3 wOk wFiles).TotalFiles ∧
    ∀ b ∈ ProcessBatches wOk 3 wFiles, b.Success + b.Failed = b.Processed) :=
  ⟨by decide, claim_C1_import_counts 3 wOk wFiles (by decide)⟩

/-- C2: For every manifest of N files and batch size B > 0, the importer's
partition has exactly ceil(N/B) batches; each batch k is the contiguous,
order-preserving slice `files[B*k : B*k+B]`; their concatenation is the
manifest exactly (no file skipped, none duplicated); and `ProcessBatches`
executes exactly these batches in this order. -/
theorem claim_C2_partition (B : Nat) (files : List String) (hB : 0 < B) :
    (toBatches B files).length = (files.length + B - 1) / B ∧
    (toBatches B files).flatten = files ∧
    (∀ (k : Nat) (hk : k < (toBatches B files).length),
      (toBatches B files).get ⟨k, hk⟩ = (files.drop (B * k)).take B) ∧
    ∀ ok : String → Bool, (ProcessBatches ok B files).map Batch.Files = toBatches B files := by
  refine ⟨toBatches_length B hB files, toBatches_flatten B hB files,
    toBatches_get B hB files, ?_⟩
  intro ok
  simp only [ProcessBatches, List.map_map]
  have : (Batch.Files ∘ fun p : Nat × List String =>
      Batch.mk (p.1 + 1) p.2 p.2.length (processBatch ok p.2).1 (processBatch ok p.2).2)
      = Prod.snd := rfl
  rw [this, List.enum_map_snd]

/-- Witness for C2 at batch size 3 on a concrete 7-file manifest. -/
theorem claim_C2_partition_witness :
    0 < 3 ∧
    ((toBatches 3 wFiles).length = (wFiles.length + 3 - 1) / 3 ∧
    (toBatches 3 wFiles).flatten = wFiles ∧
    (∀ (k : Nat) (hk : k < (toBatches 3 wFiles).length),
      (toBatches 3 wFiles).get ⟨k, hk⟩ = (wFiles.drop (3 * k)).take 3) ∧
    ∀ ok : String → Bool, (ProcessBatches ok 3 wFiles).map Batch.Files = toBatches 3 wFiles) :=
  ⟨by decide, claim_C2_partition 3 wFiles (by decide)⟩

/-! ## Success-marker helpers (pkg/restorer/importer.go `contains`, `indexOf`,
`containsSuccess`)

Go strings are byte arrays; slicing `s[i:j]` is `(s.drop i).take (j - i)`
on the character list.  `indexOf` is the source's linear scan: the loop
`for i := 0; i <= len(s)-len(substr); i++` runs `len(s)-len(substr)+1`
times when `len(substr) <= len(s)` and not at all otherwise (the bound is
a negative Go int). -/

def indexOfAux (s sub : List Char) : Nat → Nat → Int
  | _, 0 => -1
  | i, count + 1 =>
    if (s.drop i).take sub.length = sub then (i : Int)
    else indexOfAux s sub (i + 1) count

def indexOf (s sub : List Char) : Int :=
  if sub.length ≤ s.length then indexOfAux s sub 0 (s.length - sub.length + 1)
  else -1

def contains (s sub : List Char) : Bool :=
  decide (sub.length ≤ s.length) &&
    (s == sub ||
      (decide (sub.length < s.length) &&
        (s.take sub.length == sub ||
         s.drop (s.length - sub.length) == sub ||
         decide (0 ≤ indexOf s sub))))

def containsSuccess (output : String) : Bool :=
  contains output.data "successfully".data ||
  contains output.data "success".data ||
  contains output.data "Success".data

theorem indexOfAux_nonneg_iff (s sub : List Char) :
    ∀ (count i : Nat),
      0 ≤ indexOfAux s sub i count
        ↔ ∃ j, j < count ∧ (s.drop (i + j)).take sub.length = sub := by
  intro count
  induction count with
  | zero =>
    intro i
    simp [indexOfAux]
  | succ n ih =>
    intro i
    rw [indexOfAux]
    split
    · rename_i hhit
      simp only [Int.ofNat_nonneg, true_iff]
      exact ⟨0, Nat.succ_pos n, by simpa using hhit⟩
    · rename_i hmiss
      rw [ih (i + 1)]
      constructor
      · rintro ⟨j, hj, hsl⟩
        exact ⟨j + 1, by omega, by rw [show i + (j + 1) = i + 1 + j by omega]; exact hsl⟩
      · rintro ⟨j, hj, hsl⟩
        rcases j with _ | j
        · exact absurd (by simpa using hsl) hmiss
        · exact ⟨j, by omega, by rw [show i + 1 + j = i + (j + 1) by omega]; exact hsl⟩

theorem infix_iff_slice_eq (s sub : List Char) :
    sub <:+: s ↔ ∃ i, i + sub.length ≤ s.length ∧ (s.drop i).take sub.length = sub := by
  constructor
  · rintro ⟨l, r, hs⟩
    refine ⟨l.length, ?_, ?_⟩
    · subst hs
      simp only [List.length_append]
      omega
    · subst hs
      rw [show l ++ sub ++ r = l ++ (sub ++ r) by simp, List.drop_left, List.take_left]
  · rintro ⟨i, _, hsl⟩
    have h1 : sub <+: s.drop i := hsl ▸ List.take_prefix _ _
    exact h1.isInfix.trans (List.drop_suffix i s).isInfix

theorem indexOf_nonneg_iff_occurs (s sub : List Char) :
    0 ≤ indexOf s sub ↔ sub <:+: s := by
  rw [indexOf]
  split
  · rename_i hle
    rw [indexOfAux_nonneg_iff, infix_iff_slice_eq]
    constructor
    · rintro ⟨j, hj, hsl⟩
      exact ⟨j, by omega, by simpa using hsl⟩
    · rintro ⟨i, hi, hsl⟩
      exact ⟨i, by omega, by simpa using hsl⟩
  · rename_i hgt
    have hfalse : ¬ (0 : Int) ≤ -1 := by omega
    constructor
    · intro h
      exact absurd h hfalse
    · intro h
      exact absurd h.length_le (by omega)

theorem contains_iff_occurs (s sub : List Char) :
    contains s sub = true ↔ sub <:+: s := by
  rw [contains]
  simp only [Bool.and_eq_true, Bool.or_eq_true, decide_eq_true_eq, beq_iff_eq]
  constructor
  · rintro ⟨hle, heq | ⟨hlt, (hpre | hsuf) | hidx⟩⟩
    · exact heq ▸ List.infix_refl sub
    · exact (infix_iff_slice_eq s sub).mpr ⟨0, by omega, by simpa using hpre⟩
    · refine (infix_iff_slice_eq s sub).mpr ⟨s.length - sub.length, by omega, ?_⟩
      rw [List.take_of_length_le, hsuf]
      simp only [List.length_drop]
      omega
    · exact (indexOf_nonneg_iff_occurs s sub).mp hidx
  · intro hinf
    have hle : sub.length ≤ s.length := hinf.length_le
    refine ⟨hle, ?_⟩
    rcases Nat.lt_or_ge sub.length s.length with hlt | hge
    · exact Or.inr ⟨hlt, Or.inr ((indexOf_nonneg_iff_occurs s sub).mpr hinf)⟩
    · exact Or.inl (hinf.eq_of_length (by omega)).symm

/-- C10: For all strings `s` and `substr`, the success-marker helper
`contains` returns true exactly when `substr` occurs as a contiguous,
case-sensitive substring of `s` (`List.IsInfix`), i.e. it is equivalent to
`indexOf s substr >= 0`, despite its separate equality/prefix/suffix
branches and its doc comment claiming case-insensitivity. -/
theorem claim_C10_contains_is_substring (s sub : List Char) :
    (contains s sub = true ↔ sub <:+: s) ∧
    contains s sub = decide (0 ≤ indexOf s sub) := by
  refine ⟨contains_iff_occurs s sub, ?_⟩
  rw [Bool.eq_iff_iff, decide_eq_true_iff, contains_iff_occurs,
    indexOf_nonneg_iff_occurs]

/-! ## Executor container-name resolution (pkg/k8s executor, `getContainerName` / `Exec`)

`Executor.container` starts as the empty string; `getContainerName`
returns it when non-empty, otherwise issues a Pods Get API call and, on
success, caches the first container's name.  On failure nothing is
written to `e.container`.  The third component of the results below
records whether that API call was issued on this invocation. -/

structure ExecState where
  container : String
  deriving Repr, DecidableEq

inductive PodResult where
  | apiError (e : String)
  | pod (containers : List String)
  deriving Repr, DecidableEq

inductive StreamResult where
  | timeout
  | streamError (e : String)
  | streamOk (stdout stderr : String)
  deriving Repr, DecidableEq

def getContainerName (st : ExecState) (pr : PodResult) :
    Except String String × ExecState × Bool :=
  if st.container ≠ "" then (.ok st.container, st, false)
  else
    match pr with
    | .apiError e => (.error ("failed to get pod info: " ++ e), st, true)
    | .pod [] => (.error "no containers in pod", st, true)
    | .pod (c :: _) => (.ok c, ⟨c⟩, true)

def Exec (st : ExecState) (pr : PodResult) (sr : StreamResult) :
    Except String (String × String) × ExecState × Bool :=
  match getContainerName st pr with
  | (.error e, st2, att) => (.error e, st2, att)
  | (.ok _, st2, att) =>
    match sr with
    | .timeout => (.error "command timed out", st2, att)
    | .streamError e => (.error ("command failed: " ++ e), st2, att)
    | .streamOk so se => (.ok (so, se), st2, att)

/-- Counterexample to C4: starting from a fresh executor (no cached
container), a first `Exec` whose pod lookup fails returns an error, yet a
second `Exec` on the resulting state re-attempts resolution (the API call
is issued again) and succeeds. -/
theorem claim_C4_counterexample :
    (Exec ⟨""⟩ (.apiError "boom") (.streamOk "" "")).1
        = .error "failed to get pod info: boom" ∧
    (Exec (Exec ⟨""⟩ (.apiError "boom") (.streamOk "" "")).2.1
        (.pod ["iotdb"]) (.streamOk "out" "")).2.2 = true ∧
    (Exec (Exec ⟨""⟩ (.apiError "boom") (.streamOk "" "")).2.1
        (.pod ["iotdb"]) (.streamOk "out" "")).1 = .ok ("out", "") := by
  refine ⟨rfl, rfl, rfl⟩

/-- C4 as amended: a failed resolution is not cached — the failing `Exec`
call errors and leaves the container identity unset, so every later `Exec`
re-attempts resolution (and succeeds when its pod lookup succeeds); only a
successful resolution is cached, and a cached identity is never re-resolved. -/
theorem claim_C4_resolution_cache (pr pr2 : PodResult) (sr sr2 : StreamResult)
    (c : String) :
    ((Exec ⟨""⟩ pr sr).2.2 = true) ∧
    (∀ e, pr = .apiError e →
      (Exec ⟨""⟩ pr sr).1 = .error ("failed to get pod info: " ++ e) ∧
      (Exec ⟨""⟩ pr sr).2.1 = ⟨""⟩ ∧
      (Exec (Exec ⟨""⟩ pr sr).2.1 pr2 sr2).2.2 = true) ∧
    (c ≠ "" →
      (Exec ⟨c⟩ pr sr).2.2 = false ∧ (Exec ⟨c⟩ pr sr).2.1 = ⟨c⟩) := by
  refine ⟨?_, ?_, ?_⟩
  · rcases pr with e | containers
    · rfl
    · rcases containers with _ | ⟨c0, rest⟩
      · rfl
      · rcases sr with _ | e | ⟨so, se⟩ <;> rfl
  · rintro e rfl
    refine ⟨rfl, rfl, ?_⟩
    rcases pr2 with e2 | containers2
    · rfl
    · rcases containers2 with _ | ⟨c0, rest⟩
      · rfl
      · rcases sr2 with _ | e2 | ⟨so, se⟩ <;> rfl
  · intro hc
    have h : (⟨c⟩ : ExecState).container ≠ "" := hc
    rcases sr with _ | e | ⟨so, se⟩ <;>
      simp [Exec, getContainerName, h]

/-! ## OSS downloader (pkg/downloader `OSSDownloader.DownloadWithProgress`)

One `AttemptEnv` per retry attempt: whether `http.NewRequestWithContext`
succeeds, the HTTP response (`none` = transport error, `some status`
otherwise), whether `os.Create` succeeds, whether `io.Copy` succeeds.
The run returns the result, the final state of the destination file
(present or not) and the number of GET attempts issued.  `os.Create`
failure returns immediately (no retry) in the source; the other failures
set `lastErr` and continue. -/

structure AttemptEnv where
  reqOk : Bool
  httpResp : Option Nat
  createOk : Bool
  copyOk : Bool
  deriving Repr, DecidableEq

inductive AttemptCause where
  | newRequestFailed
  | requestFailed
  | badStatus (code : Nat)
  | copyFailed
  deriving Repr, DecidableEq

inductive DownloadError where
  | mkdirFailed
  | createFileFailed
  | retriesExhausted (last : Option AttemptCause)
  deriving Repr, DecidableEq

inductive AttemptStep where
  | failed (cause : AttemptCause) (fileAfter : Bool)
  | fatalCreate (fileAfter : Bool)
  | succeeded
  deriving Repr, DecidableEq

def runAttempt (a : AttemptEnv) (file : Bool) : AttemptStep :=
  if !a.reqOk then .failed .newRequestFailed file
  else
    match a.httpResp with
    | none => .failed .requestFailed file
    | some status =>
      if status ≠ 200 then .failed (.badStatus status) file
      else if !a.createOk then .fatalCreate file
      else if !a.copyOk then .failed .copyFailed false
      else .succeeded

structure DownloadEnv where
  dirOk : Bool
  destExists : Bool
  attempts : Nat → AttemptEnv

def downloadAux (attempts : Nat → AttemptEnv) :
    Nat → Nat → Bool → Option AttemptCause →
      Except DownloadError Unit × Bool × Nat
  | _, 0, file, lastErr => (.error (.retriesExhausted lastErr), file, 0)
  | i, fuel + 1, file, _ =>
    match runAttempt (attempts i) file with
    | .failed c f2 =>
      let r := downloadAux attempts (i + 1) fuel f2 (some c)
      (r.1, r.2.1, r.2.2 + 1)
    | .fatalCreate f2 => (.error .createFileFailed, f2, 1)
    | .succeeded => (.ok (), true, 1)

def DownloadWithProgress (maxRetries : Nat) (env : DownloadEnv) :
    Except DownloadError Unit × Bool × Nat :=
  if !env.dirOk then (.error .mkdirFailed, env.destExists, 0)
  else if env.destExists then (.ok (), true, 0)
  else downloadAux env.attempts 0 maxRetries false none

/-- An attempt whose failure is one of the kinds the claim lists: transport
error, non-200 status, or copy failure (in particular `os.Create` and
`http.NewRequestWithContext` succeed whenever reached). -/
def failsListed (a : AttemptEnv) : Bool :=
  a.reqOk &&
    (match a.httpResp with
     | none => true
     | some status => decide (status ≠ 200) || (a.createOk && !a.copyOk))

/-- The error cause such a failing attempt records as `lastErr`. -/
def listedCause (a : AttemptEnv) : AttemptCause :=
  match a.httpResp with
  | none => .requestFailed
  | some status => if status ≠ 200 then .badStatus status else .copyFailed

theorem runAttempt_of_failsListed (a : AttemptEnv) (hf : failsListed a = true)
    (file : Bool) : runAttempt a file = .failed (listedCause a) file ∨
      runAttempt a file = .failed (listedCause a) false := by
  rcases a with ⟨reqOk, httpResp, createOk, copyOk⟩
  simp only [failsListed, Bool.and_eq_true] at hf
  obtain ⟨hreq, hrest⟩ := hf
  subst hreq
  rcases httpResp with _ | status
  · left
    rfl
  · simp only [Bool.or_eq_true, decide_eq_true_eq, Bool.and_eq_true,
      Bool.not_eq_eq_eq_not, Bool.not_true] at hrest
    rcases hrest with hst | ⟨hcr, hcp⟩
    · left
      simp [runAttempt, listedCause, hst]
    · subst hcr
      subst hcp
      by_cases hst : status = 200
      · subst hst
        right
        simp [runAttempt, listedCause]
      · left
        simp [runAttempt, listedCause, hst]

theorem downloadAux_all_fail (attempts : Nat → AttemptEnv) :
    ∀ (fuel i : Nat), 0 < fuel →
      (∀ j, j < fuel → failsListed (attempts (i + j)) = true) →
      ∀ lastErr,
        downloadAux attempts i fuel false lastErr
          = (.error (.retriesExhausted (some (listedCause (attempts (i + fuel - 1))))),
             false, fuel) := by
  intro fuel
  induction fuel with
  | zero =>
    intro i h
    exact absurd h (by omega)
  | succ n ih =>
    intro i _ hall lastErr
    have hf0 : failsListed (attempts i) = true := by simpa using hall 0 (by omega)
    have hrun : runAttempt (attempts i) false = .failed (listedCause (attempts i)) false := by
      rcases runAttempt_of_failsListed (attempts i) hf0 false with h | h <;> exact h
    simp only [downloadAux, hrun]
    rcases Nat.eq_zero_or_pos n with hn | hn
    · subst hn
      simp [downloadAux]
    · have hall' : ∀ j, j < n → failsListed (attempts (i + 1 + j)) = true := by
        intro j hj
        have h := hall (j + 1) (by omega)
        rwa [show i + (j + 1) = i + 1 + j by omega] at h
      rw [ih (i + 1) hn hall' (some (listedCause (attempts i)))]
      have hidx : i + 1 + n - 1 = i + (n + 1) - 1 := by omega
      simp [hidx]

/-- C5: with no file at the destination, `DownloadWithProgress` performs
exactly `maxRetries` GET attempts before failing when every attempt fails
with one of the listed causes (transport error, non-200 status, copy
failure); each failed attempt leaves no partial destination file behind,
and the returned error wraps the cause of the final attempt. -/
theorem claim_C5_retries_exhausted (maxRetries : Nat) (env : DownloadEnv)
    (hdir : env.dirOk = true) (hnf : env.destExists = false) (hm : 0 < maxRetries)
    (hfail : ∀ j, j < maxRetries → failsListed (env.attempts j) = true) :
    DownloadWithProgress maxRetries env
      = (.error (.retriesExhausted (some (listedCause (env.attempts (maxRetries - 1))))),
         false, maxRetries) := by
  rw [DownloadWithProgress, hdir, hnf]
  simpa using downloadAux_all_fail env.attempts maxRetries 0 hm (by simpa using hfail) none

/-- Environment for the C5 witness: a transport error, then a 500 status,
then a copy failure. -/
def w5env : DownloadEnv :=
  ⟨true, false, fun j =>
    if j = 0 then ⟨true, none, true, true⟩
    else if j = 1 then ⟨true, some 500, true, true⟩
    else ⟨true, some 200, true, false⟩⟩

/-- Witness for C5: three listed-failure attempts, three tries, final error
wraps the copy failure of attempt 3, no partial file remains. -/
theorem claim_C5_retries_exhausted_witness :
    w5env.dirOk = true ∧ w5env.destExists = false ∧ 0 < 3 ∧
    (∀ j, j < 3 → failsListed (w5env.attempts j) = true) ∧
    DownloadWithProgress 3 w5env
      = (.error (.retriesExhausted (some (listedCause (w5env.attempts 2)))), false, 3) :=
  ⟨rfl, rfl, by decide, by decide,
    claim_C5_retries_exhausted 3 w5env rfl rfl (by decide) (by decide)⟩

/-- C8: when a file already exists at the destination path, the download
returns success with zero GET attempts issued (no network call) and the
existing destination file is left in place. -/
theorem claim_C8_existing_dest_short_circuit (maxRetries : Nat) (env : DownloadEnv)
    (hdir : env.dirOk = true) (hex : env.destExists = true) :
    DownloadWithProgress maxRetries env = (.ok (), true, 0) := by
  rw [DownloadWithProgress, hdir, hex]
  rfl

/-- Witness for C8 at a concrete environment whose destination file exists. -/
theorem claim_C8_existing_dest_short_circuit_witness :
    (⟨true, true, fun _ => ⟨true, some 200, true, true⟩⟩ : DownloadEnv).dirOk = true ∧
    (⟨true, true, fun _ => ⟨true, some 200, true, true⟩⟩ : DownloadEnv).destExists = true ∧
    DownloadWithProgress 3 ⟨true, true, fun _ => ⟨true, some 200, true, true⟩⟩
      = (.ok (), true, 0) :=
  ⟨rfl, rfl,
    claim_C8_existing_dest_short_circuit 3 ⟨true, true, fun _ => ⟨true, some 200, true, true⟩⟩ rfl rfl⟩

/-! ## Timestamp detector (pkg/downloader/detector.go `DetectTimestamp`)

The current hour (`time.Now().Format("2006010215")`) is a parameter
`hour`; the fixed minute `"35"` and the enumeration of seconds 1..10 are
in the source.  `probe` stands for `Downloader.Exists` on a URL:
`probeErr` (error, logged and skipped), `absent` (404), `found` (200 with
a size). -/

inductive ProbeResult where
  | probeErr (e : String)
  | absent
  | found (size : Nat)
  deriving Repr, DecidableEq

def isFound : ProbeResult → Bool
  | .found _ => true
  | _ => false

def pad2 (n : Nat) : String :=
  if n < 10 then "0" ++ toString n else toString n

def candidateTimestamp (hour : String) (second : Nat) : String :=
  hour ++ "35" ++ pad2 second

def BuildBackupFilename (podName timestamp : String) : String :=
  "emsau_" ++ podName ++ "_" ++ timestamp ++ ".tar.gz"

def candidateURL (baseURL podName hour : String) (second : Nat) : String :=
  baseURL ++ "/" ++ BuildBackupFilename podName (candidateTimestamp hour second)

def detectAux (probe : String → ProbeResult) (baseURL podName hour : String) :
    List Nat → Option String
  | [] => none
  | s :: rest =>
    match probe (candidateURL baseURL podName hour s) with
    | .probeErr _ => detectAux probe baseURL podName hour rest
    | .absent => detectAux probe baseURL podName hour rest
    | .found _ => some (candidateTimestamp hour s)

def detectErrMsg (hour : String) : String :=
  "no matching backup file found (tried " ++ hour ++ "3501-" ++ hour ++ "3510)"

def DetectTimestamp (probe : String → ProbeResult) (baseURL podName hour : String) :
    Except String String :=
  match detectAux probe baseURL podName hour (List.range' 1 10) with
  | some ts => .ok ts
  | none => .error (detectErrMsg hour)

theorem detectAux_range_some_iff (probe : String → ProbeResult)
    (baseURL podName hour : String) :
    ∀ (n a : Nat) (ts : String),
      detectAux probe baseURL podName hour (List.range' a n) = some ts ↔
        ∃ s, a ≤ s ∧ s < a + n ∧
          isFound (probe (candidateURL baseURL podName hour s)) = true ∧
          (∀ t, a ≤ t → t < s →
            isFound (probe (candidateURL baseURL podName hour t)) = false) ∧
          ts = candidateTimestamp hour s := by
  intro n
  induction n with
  | zero =>
    intro a ts
    simp only [List.range'_zero, detectAux]
    constructor
    · intro h
      exact absurd h (by simp)
    · rintro ⟨s, h1, h2, -⟩
      omega
  | succ n ih =>
    intro a ts
    rw [List.range'_succ]
    rcases hP : probe (candidateURL baseURL podName hour a) with e | _ | sz
    all_goals simp only [detectAux, hP]
    case found =>
      constructor
      · intro h
        refine ⟨a, le_rfl, by omega, by rw [hP]; rfl, ?_, by
          simpa using h.symm⟩
        intro t h1 h2
        omega
      · rintro ⟨s, h1, h2, hPs, hmin, hts⟩
        rcases Nat.eq_or_lt_of_le h1 with rfl | hlt
        · simpa using hts.symm
        · have := hmin a le_rfl hlt
          rw [hP] at this
          exact absurd this (by simp [isFound])
    all_goals
      rw [ih (a + 1) ts]
      constructor
      · rintro ⟨s, h1, h2, hPs, hmin, hts⟩
        refine ⟨s, by omega, by omega, hPs, ?_, hts⟩
        intro t ht1 ht2
        rcases Nat.eq_or_lt_of_le ht1 with rfl | htlt
        · rw [hP]
          rfl
        · exact hmin t htlt ht2
      · rintro ⟨s, h1, h2, hPs, hmin, hts⟩
        have hsa : s ≠ a := by
          intro h
          subst h
          rw [hP] at hPs
          exact absurd hPs (by simp [isFound])
        refine ⟨s, by omega, by omega, hPs, ?_, hts⟩
        intro t ht1 ht2
        exact hmin t (by omega) ht2

theorem detectAux_range_none (probe : String → ProbeResult)
    (baseURL podName hour : String) (n a : Nat)
    (hnone : ∀ s, a ≤ s → s < a + n →
      isFound (probe (candidateURL baseURL podName hour s)) = false) :
    detectAux probe baseURL podName hour (List.range' a n) = none := by
  cases h : detectAux probe baseURL podName hour (List.range' a n) with
  | none => rfl
  | some ts =>
    obtain ⟨s, h1, h2, hPs, -⟩ :=
      (detectAux_range_some_iff probe baseURL podName hour n a ts).mp h
    rw [hnone s h1 h2] at hPs
    exact absurd hPs (by simp)

/-- C6: `DetectTimestamp` enumerates candidates at the given hour with fixed
minute 35 and seconds 01..10 in increasing order, returning the timestamp of
the first (smallest-second) candidate whose URL
`{base}/emsau_{pod}_{timestamp}.tar.gz` probes as existing; if none of the
ten probes reports existence it returns an error. -/
theorem claim_C6_detect_first_hit (probe : String → ProbeResult)
    (baseURL podName hour : String) :
    (∀ ts, DetectTimestamp probe baseURL podName hour = .ok ts ↔
      ∃ s, 1 ≤ s ∧ s ≤ 10 ∧
        isFound (probe (candidateURL baseURL podName hour s)) = true ∧
        (∀ t, 1 ≤ t → t < s →
          isFound (probe (candidateURL baseURL podName hour t)) = false) ∧
        ts = candidateTimestamp hour s) ∧
    ((∀ s, 1 ≤ s → s ≤ 10 →
        isFound (probe (candidateURL baseURL podName hour s)) = false) →
      DetectTimestamp probe baseURL podName hour = .error (detectErrMsg hour)) ∧
    (∀ s, candidateURL baseURL podName hour s
        = baseURL ++ "/" ++ BuildBackupFilename podName (candidateTimestamp hour s)) ∧
    (∀ s, candidateTimestamp hour s = hour ++ "35" ++ pad2 s) := by
  refine ⟨?_, ?_, fun s => rfl, fun s => rfl⟩
  · intro ts
    rw [DetectTimestamp]
    cases h : detectAux probe baseURL podName hour (List.range' 1 10) with
    | none =>
      simp only []
      constructor
      · intro hok
        exact absurd hok (by simp)
      · intro hex
        obtain ⟨s, h1, h2, hPs, hmin, hts⟩ := hex
        have : detectAux probe baseURL podName hour (List.range' 1 10) = some ts := by
          rw [detectAux_range_some_iff probe baseURL podName hour 10 1 ts]
          exact ⟨s, h1, by omega, hPs, hmin, hts⟩
        rw [h] at this
        exact absurd this (by simp)
    | some ts' =>
      simp only []
      rw [detectAux_range_some_iff probe baseURL podName hour 10 1 ts'] at h
      constructor
      · intro hok
        have hts : ts' = ts := by
          cases hok
          rfl
        subst hts
        obtain ⟨s, h1, h2, hPs, hmin, hts⟩ := h
        exact ⟨s, h1, by omega, hPs, hmin, hts⟩
      · intro hex
        obtain ⟨s, h1, h2, hPs, hmin, hts⟩ := hex
        obtain ⟨s', h1', h2', hPs', hmin', hts'⟩ := h
        have hss : s = s' := by
          rcases Nat.lt_trichotomy s s' with hlt | heq | hgt
          · rw [hmin' s h1 hlt] at hPs
            exact absurd hPs (by simp)
          · exact heq
          · rw [hmin s' h1' hgt] at hPs'
            exact absurd hPs' (by simp)
        rw [hts, hss, ← hts']
  · intro hnone
    rw [DetectTimestamp,
      detectAux_range_none probe baseURL podName hour 10 1
        (fun s h1 h2 => hnone s h1 (by omega))]

/-! ## Restore orchestration (pkg/restorer restorer.go `IoTDBRestorer.Restore`)

`RestoreEnv` supplies the outcome of each remote/HTTP call the pipeline
can issue (one field per call site); the second component of `Restore`
is the trace of remote commands issued, in order.  Fields whose results
the source only logs (`backupDirCmd`, `listAfterExtract`, the delete and
flush commands, `memCheck`, `cleanupCmd`) still appear as events but
cannot influence the returned result: `deleteDatabases` in the source
logs each error and returns `nil`, and `cleanup` has no return value. -/

inductive Event where
  | fileCheck
  | wget
  | backupDir
  | tarExtract
  | listFiles
  | deleteDb (db : String)
  | flush
  | findTsfiles
  | memCheck
  | load (file : String)
  | removeArchive
  deriving Repr, DecidableEq

structure RestoreEnv where
  fileExists : Except String Bool
  wget : Except String (String × String)
  backupDirCmd : Except String (String × String)
  tar : Except String (String × String)
  listAfterExtract : Except String String
  deleteDbCmd : String → Except String (String × String)
  flushCmd : Except String (String × String)
  findTsfiles : Except String (String × String)
  loadFile : String → Except String (String × String)
  memCheckCmd : Except String String
  cleanupCmd : Except String (String × String)

structure RestoreOptions where
  Timestamp : String
  DryRun : Bool
  SkipDelete : Bool

structure RestoreResult where
  TotalFiles : Nat
  SuccessCount : Nat
  FailedCount : Nat
  BackupFile : String
  Timestamp : String
  Error : Option String

/-- `splitLines` (restorer.go): split at each newline byte; the segment
after the last newline is appended only when it is non-empty (`start <
len(s)` in the source). -/
def splitLinesAux : List Char → List Char → List (List Char)
  | [], cur => if cur = [] then [] else [cur.reverse]
  | c :: rest, cur =>
    if c = '\n' then cur.reverse :: splitLinesAux rest []
    else splitLinesAux rest (c :: cur)

def splitLines (s : String) : List (List Char) :=
  if s = "" then [] else splitLinesAux s.data []

/-- `parseFileList` (restorer.go): keep the non-empty lines, in order. -/
def parseFileList (s : String) : List String :=
  ((splitLines s).filter (fun l => !l.isEmpty)).map (fun cs => String.mk cs)

def downloadBackup (env : RestoreEnv) : List Event × Option String :=
  match env.fileExists with
  | .error e => ([.fileCheck], some e)
  | .ok true => ([.fileCheck], none)
  | .ok false =>
    match env.wget with
    | .error e => ([.fileCheck, .wget], some ("download failed: " ++ e))
    | .ok _ => ([.fileCheck, .wget], none)

def extractBackup (env : RestoreEnv) : List Event × Option String :=
  match env.tar with
  | .error e => ([.backupDir, .tarExtract], some ("extract failed: " ++ e))
  | .ok _ => ([.backupDir, .tarExtract, .listFiles], none)

/-- `deleteDatabases` (restorer.go) issues one delete per database and a
flush; every error is logged and the function returns `nil`. -/
def deleteDatabases : List Event :=
  [.deleteDb "root.emsplus", .deleteDb "root.energy", .flush]

def fileOk (env : RestoreEnv) (f : String) : Bool :=
  match env.loadFile f with
  | .error _ => false
  | .ok (so, se) => containsSuccess so || containsSuccess se

def importEvents (B : Nat) (files : List String) : List Event :=
  ((toBatches B files).map (fun b => Event.memCheck :: b.map Event.load)).flatten

def importTsFiles (env : RestoreEnv) (B : Nat) :
    List Event × Except String ImportResult :=
  match env.findTsfiles with
  | .error e => ([.findTsfiles], .error ("failed to find tsfiles: " ++ e))
  | .ok (out, _) =>
    if out = "" then ([.findTsfiles], .error "no tsfile files found")
    else
      let files := parseFileList out
      (.findTsfiles :: importEvents B files, .ok (Import B (fileOk env) files))

def cleanupEvents : List Event := [.removeArchive]

def Restore (env : RestoreEnv) (podName : String) (B : Nat)
    (opts : RestoreOptions) : RestoreResult × List Event :=
  if opts.DryRun then
    ({ TotalFiles := 0, SuccessCount := 0, FailedCount := 0, BackupFile := "",
       Timestamp := opts.Timestamp, Error := none }, [])
  else
    let backupFile := "emsau_" ++ podName ++ "_" ++ opts.Timestamp ++ ".tar.gz"
    match downloadBackup env with
    | (ev1, some e) =>
      ({ TotalFiles := 0, SuccessCount := 0, FailedCount := 0,
         BackupFile := backupFile, Timestamp := opts.Timestamp,
         Error := some e }, ev1)
    | (ev1, none) =>
      match extractBackup env with
      | (ev2, some e) =>
        ({ TotalFiles := 0, SuccessCount := 0, FailedCount := 0,
           BackupFile := backupFile, Timestamp := opts.Timestamp,
           Error := some e }, ev1 ++ ev2)
      | (ev2, none) =>
        let ev3 := if opts.SkipDelete then [] else deleteDatabases
        match importTsFiles env B with
        | (ev4, .error e) =>
          ({ TotalFiles := 0, SuccessCount := 0, FailedCount := 0,
             BackupFile := backupFile, Timestamp := opts.Timestamp,
             Error := some e }, ev1 ++ ev2 ++ ev3 ++ ev4)
        | (ev4, .ok ir) =>
          ({ TotalFiles := ir.TotalFiles, SuccessCount := ir.SuccessCount,
             FailedCount := ir.FailedCount, BackupFile := backupFile,
             Timestamp := opts.Timestamp, Error := none },
           ev1 ++ ev2 ++ ev3 ++ ev4 ++ cleanupEvents)

/-- The download phase succeeded: the staged archive already existed, or
the in-pod wget succeeded. -/
def downloadOk (env : RestoreEnv) : Prop :=
  env.fileExists = .ok true ∨
    (env.fileExists = .ok false ∧ ∃ v, env.wget = .ok v)

def tarOk (env : RestoreEnv) : Prop := ∃ v, env.tar = .ok v

/-- The tsfile-discovery failures the source treats as fatal: the find
command errors, or its stdout is the empty string. -/
def discoveryFails (env : RestoreEnv) : Prop :=
  (∃ e, env.findTsfiles = .error e) ∨ (∃ se, env.findTsfiles = .ok ("", se))

def isImportEvent : Event → Bool
  | .load _ => true
  | .memCheck => true
  | _ => false

/-- C9: for every job with `dryRun = true`, `Restore` reports zero total,
success and failed counts and issues no remote command at all (empty
trace): no download, extract, delete, import or cleanup side effect. -/
theorem claim_C9_dry_run (env : RestoreEnv) (podName : String) (B : Nat)
    (opts : RestoreOptions) (hdry : opts.DryRun = true) :
    Restore env podName B opts
      = ({ TotalFiles := 0, SuccessCount := 0, FailedCount := 0, BackupFile := "",
           Timestamp := opts.Timestamp, Error := none }, []) := by
  rw [Restore, hdry]
  rfl

/-- An environment in which every remote call succeeds and every load
reports success. -/
def envAllOk : RestoreEnv :=
  { fileExists := .ok true
    wget := .ok ("", "")
    backupDirCmd := .ok ("", "")
    tar := .ok ("", "")
    listAfterExtract := .ok ""
    deleteDbCmd := fun _ => .ok ("", "")
    flushCmd := .ok ("", "")
    findTsfiles := .ok ("a.tsfile\nb.tsfile\n", "")
    loadFile := fun _ => .ok ("load successfully", "")
    memCheckCmd := .ok "1024"
    cleanupCmd := .ok ("", "") }

/-- Witness for C9 on a concrete dry-run job. -/
theorem claim_C9_dry_run_witness :
    (RestoreOptions.mk "20260203083502" true false).DryRun = true ∧
    Restore envAllOk "iotdb-datanode-0" 3 (RestoreOptions.mk "20260203083502" true false)
      = ({ TotalFiles := 0, SuccessCount := 0, FailedCount := 0, BackupFile := "",
           Timestamp := "20260203083502", Error := none }, []) :=
  ⟨rfl, claim_C9_dry_run envAllOk "iotdb-datanode-0" 3
    (RestoreOptions.mk "20260203083502" true false) rfl⟩

/-- C3: in a non-dry-run `Restore`, a failure in the download phase
(the staging check or the in-pod wget), the extraction phase, or tsfile
discovery aborts the pipeline and sets a non-`none` top-level `Error`;
failures of the best-effort calls (pre-extraction directory backup,
database deletion/flush, post-run cleanup — all further fields of `env`,
universally quantified here) are swallowed: when download, extraction and
discovery succeed, the returned `Error` is `none` whatever those fields
hold. -/
theorem claim_C3_error_policy (env : RestoreEnv) (podName : String) (B : Nat)
    (opts : RestoreOptions) (hdry : opts.DryRun = false) :
    (∀ e, env.fileExists = .error e →
      (Restore env podName B opts).1.Error = some e) ∧
    (∀ e, env.fileExists = .ok false → env.wget = .error e →
      (Restore env podName B opts).1.Error = some ("download failed: " ++ e)) ∧
    (∀ e, downloadOk env → env.tar = .error e →
      (Restore env podName B opts).1.Error = some ("extract failed: " ++ e)) ∧
    (downloadOk env → tarOk env → discoveryFails env →
      (Restore env podName B opts).1.Error.isSome = true) ∧
    (∀ out se, downloadOk env → tarOk env → env.findTsfiles = .ok (out, se) →
      out ≠ "" → (Restore env podName B opts).1.Error = none) := by
  refine ⟨?_, ?_, ?_, ?_, ?_⟩
  · intro e hfe
    simp [Restore, hdry, downloadBackup, hfe]
  · intro e hfe hw
    simp [Restore, hdry, downloadBackup, hfe, hw]
  · intro e hdl htar
    rcases hdl with hfe | ⟨hfe, v, hw⟩ <;>
      simp [Restore, hdry, downloadBackup, extractBackup, hfe, htar] <;>
      simp [hw]
  · rintro hdl ⟨tv, htar⟩ hdisc
    have hfind : ∃ msg, (importTsFiles env B).2 = .error msg := by
      rcases hdisc with ⟨e, hf⟩ | ⟨se, hf⟩
      · exact ⟨"failed to find tsfiles: " ++ e, by simp [importTsFiles, hf]⟩
      · exact ⟨"no tsfile files found", by simp [importTsFiles, hf]⟩
    obtain ⟨msg, hmsg⟩ := hfind
    rcases himp : importTsFiles env B with ⟨ev4, ir⟩
    rw [himp] at hmsg
    simp only at hmsg
    subst hmsg
    rcases hdl with hfe | ⟨hfe, v, hw⟩ <;>
      simp [Restore, hdry, downloadBackup, extractBackup, hfe, htar, himp] <;>
      simp [hw]
  · intro out se hdl htarok hfind hout
    obtain ⟨tv, htar⟩ := htarok
    rcases hdl with hfe | ⟨hfe, v, hw⟩ <;>
      simp [Restore, hdry, downloadBackup, extractBackup, importTsFiles,
        hfe, htar, hfind, hout] <;>
      simp [hw]

/-- Witness for C3 in a concrete non-dry-run environment. -/
theorem claim_C3_error_policy_witness :
    (RestoreOptions.mk "20260203083502" false false).DryRun = false ∧
    ((∀ e, envAllOk.fileExists = .error e →
      (Restore envAllOk "pod" 3 (RestoreOptions.mk "20260203083502" false false)).1.Error
        = some e) ∧
    (∀ e, envAllOk.fileExists = .ok false → envAllOk.wget = .error e →
      (Restore envAllOk "pod" 3 (RestoreOptions.mk "20260203083502" false false)).1.Error
        = some ("download failed: " ++ e)) ∧
    (∀ e, downloadOk envAllOk → envAllOk.tar = .error e →
      (Restore envAllOk "pod" 3 (RestoreOptions.mk "20260203083502" false false)).1.Error
        = some ("extract failed: " ++ e)) ∧
    (downloadOk envAllOk → tarOk envAllOk → discoveryFails envAllOk →
      (Restore envAllOk "pod" 3
        (RestoreOptions.mk "20260203083502" false false)).1.Error.isSome = true) ∧
    (∀ out se, downloadOk envAllOk → tarOk envAllOk →
      envAllOk.findTsfiles = .ok (out, se) → out ≠ "" →
      (Restore envAllOk "pod" 3 (RestoreOptions.mk "20260203083502" false false)).1.Error
        = none)) :=
  ⟨rfl, claim_C3_error_policy envAllOk "pod" 3
    (RestoreOptions.mk "20260203083502" false false) rfl⟩

/-- Environment whose tsfile listing succeeds with stdout `"\n"`: the
listing yields zero files, yet the stdout is not the empty string. -/
def envNewlineFind : RestoreEnv :=
  { envAllOk with findTsfiles := .ok ("\n", "") }

/-- Counterexample to C7: with find stdout `"\n"` the discovery yields zero
files (`parseFileList` is empty), yet `Restore` proceeds into the import
phase on the empty manifest and returns a nil top-level error —
so "yields zero files" is not always fatal. -/
theorem claim_C7_counterexample :
    parseFileList "\n" = [] ∧
    (Restore envNewlineFind "pod" 3 (RestoreOptions.mk "20260203083502" false false)).1.Error
      = none ∧
    (Restore envNewlineFind "pod" 3
      (RestoreOptions.mk "20260203083502" false false)).1.TotalFiles = 0 := by
  have hpf : parseFileList "\n" = [] := by rfl
  have hne : ("\n" : String) ≠ "" := by decide
  refine ⟨hpf, ?_, ?_⟩
  · simp [Restore, envNewlineFind, envAllOk, downloadBackup, extractBackup,
      importTsFiles, hne]
  · simp [Restore, envNewlineFind, envAllOk, downloadBackup, extractBackup,
      importTsFiles, hne, hpf, Import]

/-- C7 as amended: in a non-dry-run `Restore`, tsfile discovery is fatal
when the listing command fails or when its stdout is the empty string: in
either case the result's top-level `Error` is non-nil and no import-phase
remote command (per-file load or per-batch memory check) is ever issued. -/
theorem claim_C7_discovery_fatal (env : RestoreEnv) (podName : String) (B : Nat)
    (opts : RestoreOptions) (hdry : opts.DryRun = false)
    (hdisc : discoveryFails env) :
    (Restore env podName B opts).1.Error.isSome = true ∧
    ∀ ev ∈ (Restore env podName B opts).2, isImportEvent ev = false := by
  have hfind : ∃ msg, importTsFiles env B = ([.findTsfiles], .error msg) := by
    rcases hdisc with ⟨e, hf⟩ | ⟨se, hf⟩
    · exact ⟨"failed to find tsfiles: " ++ e, by simp [importTsFiles, hf]⟩
    · exact ⟨"no tsfile files found", by simp [importTsFiles, hf]⟩
  obtain ⟨msg, hmsg⟩ := hfind
  rcases hfe : env.fileExists with e1 | b
  · refine ⟨?_, ?_⟩ <;> simp [Restore, hdry, downloadBackup, hfe, isImportEvent]
  · rcases htar : env.tar with e2 | tv
    · cases b
      · rcases hw : env.wget with e3 | wv
        · refine ⟨?_, ?_⟩ <;>
            simp [Restore, hdry, downloadBackup, hfe, hw, isImportEvent]
        · refine ⟨?_, ?_⟩ <;>
            simp [Restore, hdry, downloadBackup, extractBackup, hfe, hw, htar,
              isImportEvent]
      · refine ⟨?_, ?_⟩ <;>
          simp [Restore, hdry, downloadBackup, extractBackup, hfe, htar,
            isImportEvent]
    · cases b
      · rcases hw : env.wget with e3 | wv
        · refine ⟨?_, ?_⟩ <;>
            simp [Restore, hdry, downloadBackup, hfe, hw, isImportEvent]
        · cases hsd : opts.SkipDelete <;> refine ⟨?_, ?_⟩ <;>
            simp [Restore, hdry, downloadBackup, extractBackup, hfe, hw, htar,
              hmsg, hsd, deleteDatabases, isImportEvent]
      · cases hsd : opts.SkipDelete <;> refine ⟨?_, ?_⟩ <;>
          simp [Restore, hdry, downloadBackup, extractBackup, hfe, htar,
            hmsg, hsd, deleteDatabases, isImportEvent]

/-- Environment whose tsfile listing command fails. -/
def envFindErr : RestoreEnv :=
  { envAllOk with findTsfiles := .error "exit status 1" }

/-- Witness for the amended C7 on a concrete failing listing. -/
theorem claim_C7_discovery_fatal_witness :
    (RestoreOptions.mk "20260203083502" false false).DryRun = false ∧
    discoveryFails envFindErr ∧
    ((Restore envFindErr "pod" 3
        (RestoreOptions.mk "20260203083502" false false)).1.Error.isSome = true ∧
      ∀ ev ∈ (Restore envFindErr "pod" 3
        (RestoreOptions.mk "20260203083502" false false)).2,
        isImportEvent ev = false) :=
  ⟨rfl, Or.inl ⟨"exit status 1", rfl⟩,
    claim_C7_discovery_fatal envFindErr "pod" 3
      (RestoreOptions.mk "20260203083502" false false) rfl
      (Or.inl ⟨"exit status 1", rfl⟩)⟩
